import Mathlib

/-!
Verification development for the Smart-Shopper core: the
categorization-and-text-parsing engine (`src/utils/categorization.ts`),
the preference fan-out path (`useListCategories` / `updateItemsByName`),
and the backup validate/import protocol (`useBackup`).

Strings are modelled as `List Char`.  JavaScript regular-expression
replacement is modelled by explicit scanners that follow the engine's
left-to-right, leftmost-match, greedy semantics for the specific patterns
appearing in the source.  Wall-clock time (`Date.now()`) is passed as an
explicit parameter, and `uuidv4()` is modelled by an injective generator
driven by a counter stored in the application state.
-/

/-- Convert a string literal to the `List Char` representation. -/
def cl (s : String) : List Char := s.toList

/-- The apostrophe character (used in the politeness phrase list). -/
def apoc : Char := Char.ofNat 39

/-- JavaScript whitespace (`\s`, `String.prototype.trim`), ASCII fragment
plus NBSP. -/
def isWS (c : Char) : Bool :=
  c = ' ' || c = '\t' || c = '\n' || c = '\r' || c = Char.ofNat 11 ||
    c = Char.ofNat 12 || c = Char.ofNat 160

/-- JavaScript word character (`\w` = `[A-Za-z0-9_]`), used for `\b`. -/
def isWordChar (c : Char) : Bool :=
  ('a' ≤ c && c ≤ 'z') || ('A' ≤ c && c ≤ 'Z') || ('0' ≤ c && c ≤ '9') || c = '_'

/-- ASCII lowercasing of one character (model of `toLowerCase`). -/
def lowChar (c : Char) : Char :=
  if 65 ≤ c.toNat ∧ c.toNat ≤ 90 then Char.ofNat (c.toNat + 32) else c

/-- ASCII lowercasing of a string (model of `String.prototype.toLowerCase`). -/
def lowL (l : List Char) : List Char := l.map lowChar

/-- Model of `String.prototype.trim`. -/
def trimL (l : List Char) : List Char :=
  ((l.dropWhile isWS).reverse.dropWhile isWS).reverse

/-- Replace every maximal run of whitespace by the single character `r`
(model of `.replace(/\s+/g, r)`).  The boolean records whether we are
inside a whitespace run. -/
def collapseRuns (r : Char) : Bool → List Char → List Char
  | _, [] => []
  | inRun, c :: cs =>
    if isWS c then
      if inRun then collapseRuns r true cs else r :: collapseRuns r true cs
    else c :: collapseRuns r false cs

/-- `sanitizeItemName` from `src/utils/categorization.ts`:
`name.trim().replace(/\s+/g, ' ')`. -/
def sanitizeItemName (name : List Char) : List Char :=
  collapseRuns ' ' false (trimL name)

/-- Case-insensitively consume the literal `p` (given lowercase) from the
front of the input, returning the remainder. -/
def eatLit : List Char → List Char → Option (List Char)
  | [], l => some l
  | _ :: _, [] => none
  | p :: ps, c :: cs => if lowChar c = p then eatLit ps cs else none

/-- Consume a maximal non-empty run of whitespace (`\s+`). -/
def eatWS1 : List Char → Option (List Char)
  | [] => none
  | c :: cs => if isWS c then some (cs.dropWhile isWS) else none

/-- Consume a maximal non-empty run of decimal digits (`\d+`). -/
def eatDigits1 : List Char → Option (List Char)
  | [] => none
  | c :: cs => if c.isDigit then some (cs.dropWhile Char.isDigit) else none

/-- Try each literal alternative in order (regex alternation). -/
def tryEats (ps : List (List Char)) (l : List Char) : Option (List Char) :=
  match ps with
  | [] => none
  | p :: rest => (eatLit p l) <|> tryEats rest l

/-- Consume an optional trailing `s` (the `s?` in `bottles?` etc.). -/
def eatOptS : List Char → List Char
  | [] => []
  | c :: cs => if lowChar c = 's' then cs else c :: cs

/-- The exact container words of the article pattern
`(bottle|can|box|bag|jar)`. -/
def unitLits : List (List Char) :=
  [cl "bottle", cl "can", cl "box", cl "bag", cl "jar"]

/-- The stems of the numeric pattern's alternatives
`bottles?|cans?|boxes?|bags?|jars?`: each alternative is its stem plus an
optional trailing `s`, so `boxes?` matches `boxe` or `boxes` (never bare
`box`). -/
def unitStemLits : List (List Char) :=
  [cl "bottle", cl "can", cl "boxe", cl "bag", cl "jar"]

/-- Match `(a\s+)?dozen\s+` at the head of the input (the `\b` context is
checked by the caller).  The greedy engine prefers the variant with the
optional group. -/
def matchDozenAt (l : List Char) : Option (List Char) :=
  (do
    let r ← eatLit (cl "a") l
    let r ← eatWS1 r
    let r ← eatLit (cl "dozen") r
    eatWS1 r) <|>
  (do
    let r ← eatLit (cl "dozen") l
    eatWS1 r)

/-- Match `\d+\s+(bottles?|cans?|boxes?|bags?|jars?)\s+of\s+` at the head
of the input. -/
def matchNumUnitAt (l : List Char) : Option (List Char) := do
  let r ← eatDigits1 l
  let r ← eatWS1 r
  let r ← (tryEats unitStemLits r).map eatOptS
  let r ← eatWS1 r
  let r ← eatLit (cl "of") r
  eatWS1 r

/-- One alternative of the article pattern:
`art` then `\s+(bottle|can|box|bag|jar)\s+of\s+`. -/
def artChain (art : List Char) (l : List Char) : Option (List Char) := do
  let r ← eatLit art l
  let r ← eatWS1 r
  let r ← tryEats unitLits r
  let r ← eatWS1 r
  let r ← eatLit (cl "of") r
  eatWS1 r

/-- Match `(a|an|the)\s+(bottle|can|box|bag|jar)\s+of\s+` at the head of
the input; alternatives are tried in order with full backtracking. -/
def matchArtUnitAt (l : List Char) : Option (List Char) :=
  artChain (cl "a") l <|> artChain (cl "an") l <|> artChain (cl "the") l

/-- Global regex replacement by the empty string: scan left to right,
delete each (word-boundary anchored) match and continue after it.  All
three quantity-phrase patterns start with a word character, so the `\b`
amounts to "the previous character is not a word character"; they all end
in `\s+`, so after a deletion the previous original character is
whitespace.  Fuel-driven so the recursion is structural; callers supply
`l.length` fuel, which suffices because every match consumes at least one
character. -/
def replAllF (m : List Char → Option (List Char)) : Nat → Bool → List Char → List Char
  | 0, _, l => l
  | _ + 1, _, [] => []
  | fuel + 1, pw, c :: cs =>
    match (if pw then none else m (c :: cs)) with
    | some r => replAllF m fuel false r
    | none => c :: replAllF m fuel (isWordChar c) cs

/-- `.replace(/\b(a\s+)?dozen\s+/gi, '')`. -/
def stripDozen (l : List Char) : List Char := replAllF matchDozenAt l.length false l

/-- `.replace(/\b\d+\s+(bottles?|cans?|boxes?|bags?|jars?)\s+of\s+/gi, '')`. -/
def stripNumUnit (l : List Char) : List Char := replAllF matchNumUnitAt l.length false l

/-- `.replace(/\b(a|an|the)\s+(bottle|can|box|bag|jar)\s+of\s+/gi, '')`. -/
def stripArtUnit (l : List Char) : List Char := replAllF matchArtUnitAt l.length false l

/-- Match the separator alternative `\s+and\s+` at the head of the input. -/
def matchAndSep (l : List Char) : Option (List Char) := do
  let r ← eatWS1 l
  let r ← eatLit (cl "and") r
  eatWS1 r

/-- `.split(/[,\n]|(?:\s+and\s+)/gi)`: scan for separator matches, trying
`[,\n]` before the `and` alternative at each position, and cut the string
at every match.  `acc` is the current segment reversed; fuel as in
`replAllF`. -/
def splitSegsF : Nat → List Char → List Char → List (List Char)
  | 0, acc, l => [acc.reverse ++ l]
  | _ + 1, acc, [] => [acc.reverse]
  | fuel + 1, acc, c :: cs =>
    if c = ',' || c = '\n' then acc.reverse :: splitSegsF fuel [] cs
    else
      match matchAndSep (c :: cs) with
      | some r => acc.reverse :: splitSegsF fuel [] r
      | none => splitSegsF fuel (c :: acc) cs

/-- The separator split of `parseItemsFromText`. -/
def splitSegs (l : List Char) : List (List Char) := splitSegsF l.length [] l

/-- Try, in order, each alternative followed by `\s+` (the anchored
`^(alt1|alt2|...)\s+` patterns of the per-segment strips). -/
def tryAltsWS (ps : List (List Char)) (l : List Char) : Option (List Char) :=
  match ps with
  | [] => none
  | p :: rest => (do
      let r ← eatLit p l
      eatWS1 r) <|> tryAltsWS rest l

/-- The conversational verb list of `parseItemsFromText`. -/
def verbLits : List (List Char) :=
  [cl "add", cl "get", cl "buy", cl "need", cl "want", cl "purchase",
    cl "pick up", cl "grab"]

/-- The first-person / politeness phrase list of `parseItemsFromText`. -/
def politeLits : List (List Char) :=
  [cl "i need", cl "i want", cl "i" ++ [apoc] ++ cl "m getting",
    cl "im getting", cl "i" ++ [apoc] ++ cl "d like", cl "id like",
    cl "please add", cl "please get"]

/-- The article/quantifier list of `parseItemsFromText`. -/
def articleLits : List (List Char) :=
  [cl "a", cl "an", cl "the", cl "some"]

/-- `.replace(/^(add|get|buy|need|want|purchase|pick up|grab)\s+/gi, '')`. -/
def stripVerbPhrase (l : List Char) : List Char := (tryAltsWS verbLits l).getD l

/-- `.replace(/^(i need|i want|...)\s+/gi, '')`. -/
def stripPolitePhrase (l : List Char) : List Char := (tryAltsWS politeLits l).getD l

/-- `.replace(/^(a|an|the|some)\s+/gi, '')`. -/
def stripArticle (l : List Char) : List Char := (tryAltsWS articleLits l).getD l

/-- The per-segment cleaning of `parseItemsFromText`: trim, then the three
anchored strips, in source order. -/
def segClean (seg : List Char) : List Char :=
  stripArticle (stripPolitePhrase (stripVerbPhrase (trimL seg)))

/-- De-duplication preserving first-occurrence order
(`[...new Set(items)]`). -/
def dedupeAux : List (List Char) → List (List Char) → List (List Char)
  | _, [] => []
  | seen, x :: xs =>
    if x ∈ seen then dedupeAux seen xs else x :: dedupeAux (x :: seen) xs

/-- De-duplication preserving first-occurrence order. -/
def dedupe (l : List (List Char)) : List (List Char) := dedupeAux [] l

/-- `parseItemsFromText` from `src/utils/categorization.ts`. -/
def parseItemsFromText (input : List Char) : List (List Char) :=
  if trimL input = [] then []
  else
    let p := stripArtUnit (stripNumUnit (stripDozen input))
    dedupe (((splitSegs p).map segClean).filter (fun s => s ≠ []))

/-- Does `n` match at the front of the haystack? (exact, case-sensitive) -/
def leadsWith : List Char → List Char → Bool
  | [], _ => true
  | _ :: _, [] => false
  | a :: as, b :: bs => a = b && leadsWith as bs

/-- Substring occurrence (`String.prototype.includes`). -/
def occursB (n : List Char) : List Char → Bool
  | [] => n.isEmpty
  | l@(_ :: bs) => leadsWith n l || occursB n bs

/-- The static category → keyword mapping of
`src/utils/categorization.ts`, in its exact iteration order. -/
def categoryKeywords : List (List Char × List (List Char)) :=
  [ (cl "produce",
      [cl "tomato", cl "lettuce", cl "cucumber", cl "carrot", cl "potato",
        cl "onion", cl "garlic", cl "apple", cl "banana", cl "orange",
        cl "grape", cl "berry", cl "lemon", cl "lime", cl "avocado",
        cl "spinach", cl "broccoli", cl "pepper", cl "mushroom", cl "salad",
        cl "fruit", cl "vegetable"]),
    (cl "dairy",
      [cl "milk", cl "cheese", cl "yogurt", cl "butter", cl "cream",
        cl "eggs", cl "ice cream", cl "sour cream", cl "cottage cheese",
        cl "mozzarella", cl "cheddar", cl "parmesan"]),
    (cl "meat",
      [cl "chicken", cl "beef", cl "pork", cl "fish", cl "salmon",
        cl "tuna", cl "shrimp", cl "turkey", cl "ham", cl "bacon",
        cl "sausage", cl "steak", cl "ground beef", cl "lamb"]),
    (cl "bakery",
      [cl "bread", cl "baguette", cl "roll", cl "bagel", cl "croissant",
        cl "muffin", cl "cake", cl "pastry", cl "donut"]),
    (cl "frozen",
      [cl "frozen", cl "popsicle", cl "frozen pizza", cl "frozen vegetables",
        cl "frozen meals"]),
    (cl "pantry",
      [cl "pasta", cl "rice", cl "flour", cl "sugar", cl "salt", cl "pepper",
        cl "oil", cl "vinegar", cl "sauce", cl "can", cl "jar", cl "cereal",
        cl "oatmeal", cl "beans", cl "soup", cl "tomato sauce"]),
    (cl "beverages",
      [cl "water", cl "juice", cl "soda", cl "coffee", cl "tea", cl "beer",
        cl "wine", cl "drink", cl "beverage", cl "cola"]),
    (cl "snacks",
      [cl "chips", cl "cookie", cl "candy", cl "chocolate", cl "popcorn",
        cl "crackers", cl "nuts", cl "pretzels", cl "snack"]),
    (cl "household",
      [cl "soap", cl "shampoo", cl "toothpaste", cl "paper towel",
        cl "toilet paper", cl "detergent", cl "cleaner", cl "dish soap",
        cl "trash bags", cl "tissue"]) ]

/-- The keyword-matching fallback of `categorizeItem`: normalize to
lowercase and trim, then return the first category (in index iteration
order) with a keyword occurring in the normalized name, else `other`. -/
def categorizeByKeywords (itemName : List Char) : List Char :=
  let normalized := trimL (lowL itemName)
  match categoryKeywords.find? (fun ck => ck.2.any (fun kw => occursB kw normalized)) with
  | some ck => ck.1
  | none => cl "other"

/-- `categorizeItem` from `src/utils/categorization.ts`.  The JavaScript
guard `if (preferredCategory)` is a truthiness test, so an empty string
behaves like an absent preference. -/
def categorizeItem (itemName : List Char) (preferredCategory : Option (List Char)) :
    List Char :=
  match preferredCategory with
  | some p => if p.isEmpty then categorizeByKeywords itemName else p
  | none => categorizeByKeywords itemName

/-! ## Data model (`src/db.ts`) and application state

The persistence layer (Dexie tables plus two localStorage keys) is
modelled as one record.  `uuidv4()` is modelled by an injective generator
over a counter held in the state. -/

structure ShoppingList where
  id : List Char
  name : List Char
  createdAt : Nat
  updatedAt : Nat
  archived : Bool
  color : Option (List Char)
deriving DecidableEq, Repr

structure ShoppingItem where
  id : List Char
  listId : List Char
  name : List Char
  quantity : Nat
  unit : Option (List Char)
  category : List Char
  completed : Bool
  addedAt : Nat
  completedAt : Option Nat
  barcode : Option (List Char)
  notes : Option (List Char)
deriving DecidableEq, Repr

structure Category where
  id : List Char
  name : List Char
  icon : Option (List Char)
  sortOrder : Nat
deriving DecidableEq, Repr

structure Product where
  barcode : List Char
  name : List Char
  category : List Char
  lastUsed : Nat
deriving DecidableEq, Repr

structure CategoryPreference where
  itemName : List Char
  category : List Char
  learnedAt : Nat
deriving DecidableEq, Repr

/-- The whole persisted state: the Dexie tables `lists`, `items`,
`categories`, `products`, `categoryPreferences`, the two localStorage keys
used by the backup composable, and the uuid counter. -/
structure AppState where
  lists : List ShoppingList
  items : List ShoppingItem
  customCategories : List Category
  products : List Product
  dbPrefs : List CategoryPreference
  lsPrefs : List (List Char × List Char)
  categoryOrder : List (List Char)
  nextId : Nat
deriving DecidableEq, Repr

/-- Model of `uuidv4()`: the `n`-th generated id.  Injective, and distinct
from every id not of this shape. -/
def genUuid (n : Nat) : List Char := cl "uuid-" ++ List.replicate n 'x'

/-- The built-in category set (`src/constants/categories.ts`), in order. -/
def defaultCategories : List Category :=
  [ { id := cl "produce", name := cl "Produce", icon := some (cl "🥬"), sortOrder := 1 },
    { id := cl "dairy", name := cl "Dairy", icon := some (cl "🥛"), sortOrder := 2 },
    { id := cl "meat", name := cl "Meat & Seafood", icon := some (cl "🥩"), sortOrder := 3 },
    { id := cl "bakery", name := cl "Bakery", icon := some (cl "🍞"), sortOrder := 4 },
    { id := cl "frozen", name := cl "Frozen Foods", icon := some (cl "🧊"), sortOrder := 5 },
    { id := cl "pantry", name := cl "Pantry", icon := some (cl "🥫"), sortOrder := 6 },
    { id := cl "beverages", name := cl "Beverages", icon := some (cl "🥤"), sortOrder := 7 },
    { id := cl "snacks", name := cl "Snacks", icon := some (cl "🍪"), sortOrder := 8 },
    { id := cl "household", name := cl "Household", icon := some (cl "🧹"), sortOrder := 9 },
    { id := cl "other", name := cl "Other", icon := some (cl "📦"), sortOrder := 10 } ]

/-- The merged category set (`allCategories` of the categories store). -/
def allCategories (st : AppState) : List Category :=
  defaultCategories ++ st.customCategories

/-- `listsStore.createList` / `listsDB.create`. -/
def createList (name : List Char) (color : Option (List Char)) (now : Nat)
    (st : AppState) : ShoppingList × AppState :=
  let l : ShoppingList :=
    { id := genUuid st.nextId, name := name, createdAt := now, updatedAt := now,
      archived := false, color := color }
  (l, { st with lists := st.lists ++ [l], nextId := st.nextId + 1 })

/-- `listsStore.archiveList` / `listsDB.archive`. -/
def archiveList (id : List Char) (now : Nat) (st : AppState) : AppState :=
  { st with lists := st.lists.map (fun l =>
      if l.id = id then { l with archived := true, updatedAt := now } else l) }

/-- `itemsStore.createItem` / `itemsDB.create`.  Creation always starts
items uncompleted; quantity defaults to 1 at the importer call site. -/
def createItem (listId name category : List Char) (quantity : Nat)
    (unit : Option (List Char)) (now : Nat) (st : AppState) :
    ShoppingItem × AppState :=
  let it : ShoppingItem :=
    { id := genUuid st.nextId, listId := listId, name := name,
      quantity := quantity, unit := unit, category := category,
      completed := false, addedAt := now, completedAt := none,
      barcode := none, notes := none }
  (it, { st with items := st.items ++ [it], nextId := st.nextId + 1 })

/-- `itemsStore.toggleItemComplete` / `itemsDB.toggleComplete` (the list
id is only used for the in-memory cache; the database update is by item
id). -/
def toggleItemComplete (_listId id : List Char) (now : Nat) (st : AppState) : AppState :=
  { st with items := st.items.map (fun i =>
      if i.id = id then
        { i with completed := !i.completed,
                 completedAt := if !i.completed then some now else none }
      else i) }

/-- The destructive phase of a replace-mode import: delete every list
(each deletion cascades to that list's items), clear the products table,
delete every custom category. -/
def clearForReplace (st : AppState) : AppState :=
  { st with
    items := st.items.filter (fun i => ¬ st.lists.any (fun l => l.id = i.listId)),
    lists := [],
    products := [],
    customCategories := [] }

/-- `Math.max(...allCategories.map(cat => cat.sortOrder || 0),
DEFAULT_CATEGORIES.length)` from `createCategory`. -/
def maxSortOrder (st : AppState) : Nat :=
  (allCategories st).foldl (fun m c => max m c.sortOrder) defaultCategories.length

/-- The synthetic id of `categoriesStore.createCategory`:
`custom_<name lowercased, whitespace runs replaced by _>_<Date.now()>`. -/
def mkCustomId (name : List Char) (now : Nat) : List Char :=
  cl "custom_" ++ collapseRuns '_' false (lowL name) ++ ['_'] ++ Nat.toDigits 10 now

/-- `categoriesStore.createCategory`. -/
def createCategory (name icon : List Char) (now : Nat) (st : AppState) : AppState :=
  let cat : Category :=
    { id := mkCustomId name now, name := name, icon := some icon,
      sortOrder := maxSortOrder st + 1 }
  { st with customCategories := st.customCategories ++ [cat] }

/-- `productsStore.saveProduct`: upsert by barcode, refreshing `lastUsed`. -/
def saveProduct (barcode name category : List Char) (now : Nat) (st : AppState) : AppState :=
  let p : Product := { barcode := barcode, name := name, category := category, lastUsed := now }
  if st.products.any (fun q => q.barcode = barcode) then
    { st with products := st.products.map (fun q => if q.barcode = barcode then p else q) }
  else
    { st with products := st.products ++ [p] }

/-! ## Backup validator and importer (`src/composables/useBackup.ts`) -/

/-- The shape of a parsed backup candidate.  Each field the validator
inspects is optional: `none` models a missing field (or, for the array
fields, a non-array value; for `timestamp`, a non-numeric value). -/
structure BackupData where
  version : Option (List Char)
  timestamp : Option Int
  lists : Option (List ShoppingList)
  items : Option (List ShoppingItem)
  customCategories : Option (List Category)
  products : Option (List Product)
  categoryPreferences : Option (List (List Char × List Char))
  categoryOrder : Option (List (List Char))
deriving DecidableEq, Repr

structure BackupValidationResult where
  valid : Bool
  errors : List (List Char)
deriving DecidableEq, Repr

/-- JavaScript truthiness of an optional string (`!backup.version` is true
for a missing or empty version). -/
def truthyStr : Option (List Char) → Bool
  | none => false
  | some s => ¬ s.isEmpty

/-- `validateBackup`: accumulate every shape violation; a non-object
candidate (modelled by `none`) short-circuits with a single error. -/
def validateBackup (data : Option BackupData) : BackupValidationResult :=
  match data with
  | none => { valid := false, errors := [cl "Backup data must be an object"] }
  | some b =>
    let errors : List (List Char) :=
      (if ¬ truthyStr b.version then [cl "Missing version field"] else []) ++
      (if b.timestamp.isNone then [cl "Missing or invalid timestamp field"] else []) ++
      (if b.lists.isNone then [cl "Missing or invalid lists array"] else []) ++
      (if b.items.isNone then [cl "Missing or invalid items array"] else []) ++
      (if b.customCategories.isNone then [cl "Missing or invalid customCategories array"] else []) ++
      (if b.products.isNone then [cl "Missing or invalid products array"] else []) ++
      (if truthyStr b.version && ¬ leadsWith (cl "1.") (b.version.getD []) then
        [cl "Incompatible backup version: " ++ b.version.getD []] else [])
    { valid := errors.isEmpty, errors := errors }

/-- `Array.prototype.join(', ')`. -/
def joinComma : List (List Char) → List Char
  | [] => []
  | [x] => x
  | x :: xs => x ++ cl ", " ++ joinComma xs

/-- Restoring one snapshot list: re-create it, re-apply the archived
flag, then re-create its items (quantity and unit take the creation
defaults) and re-apply each completed flag. -/
def restoreListStep (b : BackupData) (now : Nat) (st : AppState)
    (l : ShoppingList) : AppState :=
  let p := createList l.name l.color now st
  let newList := p.1
  let st1 := if l.archived then archiveList newList.id now p.2 else p.2
  let listItems := (b.items.getD []).filter (fun it => it.listId = l.id)
  listItems.foldl (fun s it =>
    let q := createItem newList.id it.name it.category 1 none now s
    if it.completed then toggleItemComplete newList.id q.1.id now q.2 else q.2) st1

/-- The icon restored for a snapshot custom category:
`category.icon || '📦'`. -/
def iconOrBox (c : Category) : List Char :=
  match c.icon with
  | some ic => if ic.isEmpty then cl "📦" else ic
  | none => cl "📦"

/-- The last two phases of `importBackup`: overwrite the stored preference
map (the field is always present on a typed snapshot object), and
overwrite the stored category order only when the snapshot's order is
non-empty. -/
def applyPrefsAndOrder (b : BackupData) (st4 : AppState) : AppState :=
  let st5 :=
    match b.categoryPreferences with
    | some m => { st4 with lsPrefs := m }
    | none => st4
  match b.categoryOrder with
  | some ord => if ord.isEmpty then st5 else { st5 with categoryOrder := ord }
  | none => st5

/-- `importBackup`: validate (throwing, with the joined error list, before
any mutation), optionally clear existing data, then restore custom
categories, products, lists with their items, the preference map, and —
only when non-empty — the category order.  The returned pair is the state
after the call together with the thrown error message, if any. -/
def importBackup (b : BackupData) (merge : Bool) (now : Nat) (st : AppState) :
    AppState × Option (List Char) :=
  let v := validateBackup (some b)
  if ¬ v.valid then (st, some (cl "Invalid backup: " ++ joinComma v.errors))
  else
    let st1 := if merge then st else clearForReplace st
    let st2 := (b.customCategories.getD []).foldl
      (fun s c => createCategory c.name (iconOrBox c) now s) st1
    let st3 := (b.products.getD []).foldl
      (fun s p => saveProduct p.barcode p.name p.category now s) st2
    let st4 := (b.lists.getD []).foldl (restoreListStep b now) st3
    (applyPrefsAndOrder b st4, none)

/-! ## Preference learning and the category fan-out
(`src/stores/preferences.ts`, `src/stores/items.ts`,
`src/composables/useListCategories.ts`) -/

/-- `normalizeItemName` from the preferences store. -/
def normalizeItemName (name : List Char) : List Char := trimL (lowL name)

/-- `preferencesStore.savePreference`: upsert by normalized item name. -/
def savePreference (itemName category : List Char) (now : Nat) (st : AppState) : AppState :=
  let normalized := normalizeItemName itemName
  let p : CategoryPreference :=
    { itemName := normalized, category := category, learnedAt := now }
  if st.dbPrefs.any (fun q => q.itemName = normalized) then
    { st with dbPrefs := st.dbPrefs.map (fun q => if q.itemName = normalized then p else q) }
  else
    { st with dbPrefs := st.dbPrefs ++ [p] }

/-- `itemsStore.updateItemsByName` with `{ category }` updates: update
every item, in every list, whose normalized name matches. -/
def updateItemsByName (itemName newCategory : List Char) (st : AppState) : AppState :=
  let normalized := normalizeItemName itemName
  { st with items := st.items.map (fun i =>
      if normalizeItemName i.name = normalized then { i with category := newCategory } else i) }

/-- `handleChangeCategory` from `useListCategories`: find the edited item
in its list, learn the preference, then fan the category out to every
item sharing the normalized name. -/
def handleChangeCategory (listId itemId newCategory : List Char) (now : Nat)
    (st : AppState) : AppState :=
  match (st.items.filter (fun i => i.listId = listId)).find? (fun i => i.id = itemId) with
  | none => st
  | some item =>
    updateItemsByName item.name newCategory (savePreference item.name newCategory now st)

/-! ## Theorems -/

/-- C4: `parseItemsFromText "2 bottles of milk, a dozen eggs and bread"`
strips the quantity phrases over the whole string before splitting, splits
on the comma and on the whitespace-surrounded word `and`, and returns
exactly `["milk", "eggs", "bread"]`. -/
theorem c4_scenario_parse :
    parseItemsFromText (cl "2 bottles of milk, a dozen eggs and bread") =
      [cl "milk", cl "eggs", cl "bread"] := by
  decide

/-- The candidate backup object `{version: "1.0.0"}` of the C3 scenario:
an object with only a version field. -/
def candC3 : Option BackupData :=
  some
    { version := some (cl "1.0.0"), timestamp := none, lists := none,
      items := none, customCategories := none, products := none,
      categoryPreferences := none, categoryOrder := none }

/-- C3: `validateBackup` accumulates every shape violation: on the
candidate `{version: "1.0.0"}` it reports invalid with at least 4 distinct
error strings (in fact 5), and on every candidate it reports valid exactly
when the error list is empty. -/
theorem c3_validator_accumulates :
    (validateBackup candC3).valid = false ∧
    4 ≤ (validateBackup candC3).errors.length ∧
    (validateBackup candC3).errors.Nodup ∧
    ∀ c : Option BackupData,
      ((validateBackup c).valid = true ↔ (validateBackup c).errors = []) := by
  refine ⟨by decide, by decide, by decide, fun c => ?_⟩
  cases c with
  | none => simp [validateBackup]
  | some b => simpa only [validateBackup] using List.isEmpty_iff

/-- C7 counterexample: the empty string is a non-null preferred category,
but the JavaScript truthiness guard `if (preferredCategory)` treats it as
absent, so `categorizeItem "Milk" (some "")` falls back to keyword
matching and returns `"dairy"`, not the supplied preferred category. -/
theorem c7_empty_preference_counterexample :
    categorizeItem (cl "Milk") (some (cl "")) = cl "dairy" ∧
      cl "dairy" ≠ cl "" := by
  decide

/-- C7 (amended): for every item name and every non-empty preferred
category string, `categorizeItem` returns exactly the preferred category,
regardless of keyword matches.  (The empty string, though non-null, is
falsy in JavaScript and does not win.) -/
theorem c7_preferred_category_wins (name p : List Char) (h : p ≠ []) :
    categorizeItem name (some p) = p := by
  unfold categorizeItem
  simp [List.isEmpty_iff, h]

/-- C7 witness: the preferred category `"bakery"` overrides the keyword
default `"dairy"` for `"Eggs"`. -/
theorem c7_preferred_category_wins_witness :
    cl "bakery" ≠ [] ∧ categorizeItem (cl "Eggs") (some (cl "bakery")) = cl "bakery" :=
  ⟨by decide, c7_preferred_category_wins (cl "Eggs") (cl "bakery") (by decide)⟩

/-- C2: `importBackup` is gated by `validateBackup`: on an invalid
candidate it throws `Invalid backup: <joined errors>` and leaves the whole
state (lists, items, custom categories, products, preferences, category
order) untouched; on a valid candidate it throws no validation error. -/
theorem c2_import_validation_gate (b : BackupData) (m : Bool) (now : Nat) (st : AppState) :
    ((validateBackup (some b)).valid = false →
      importBackup b m now st =
        (st, some (cl "Invalid backup: " ++ joinComma (validateBackup (some b)).errors))) ∧
    ((validateBackup (some b)).valid = true →
      (importBackup b m now st).2 = none) := by
  constructor <;> intro h <;> simp [importBackup, h]

/-- The empty initial application state. -/
def st0 : AppState :=
  { lists := [], items := [], customCategories := [], products := [],
    dbPrefs := [], lsPrefs := [], categoryOrder := [], nextId := 0 }

/-- An invalid backup candidate (object with only a version). -/
def bBad : BackupData :=
  { version := some (cl "1.0.0"), timestamp := none, lists := none,
    items := none, customCategories := none, products := none,
    categoryPreferences := none, categoryOrder := none }

/-- A minimal valid snapshot: one archived colored list holding one
completed item of quantity 3 with a unit. -/
def bOne : BackupData :=
  { version := some (cl "1.0.0"), timestamp := some 0,
    lists := some
      [{ id := cl "L1", name := cl "Groceries", createdAt := 0, updatedAt := 0,
         archived := true, color := some (cl "#f00") }],
    items := some
      [{ id := cl "I1", listId := cl "L1", name := cl "Milk", quantity := 3,
         unit := some (cl "L"), category := cl "dairy", completed := true,
         addedAt := 0, completedAt := some 5, barcode := none, notes := none }],
    customCategories := some [], products := some [],
    categoryPreferences := some [(cl "milk", cl "dairy")],
    categoryOrder := some [] }

/-- C2 witness: the gate at two concrete candidates — an invalid one
throws the joined message without mutating the empty state, and a valid
one does not throw. -/
theorem c2_import_validation_gate_witness :
    (validateBackup (some bBad)).valid = false ∧
    importBackup bBad true 0 st0 =
      (st0, some (cl "Invalid backup: " ++ joinComma (validateBackup (some bBad)).errors)) ∧
    (validateBackup (some bOne)).valid = true ∧
    (importBackup bOne false 100 st0).2 = none :=
  ⟨by decide, (c2_import_validation_gate bBad true 0 st0).1 (by decide),
   by decide, (c2_import_validation_gate bOne false 100 st0).2 (by decide)⟩

/-- A fold step that leaves the stored category order alone leaves it
alone over the whole fold. -/
theorem foldl_categoryOrder {α : Type} (f : AppState → α → AppState)
    (hf : ∀ s a, (f s a).categoryOrder = s.categoryOrder) :
    ∀ (xs : List α) (s : AppState), (xs.foldl f s).categoryOrder = s.categoryOrder
  | [], _ => rfl
  | x :: xs, s => (foldl_categoryOrder f hf xs (f s x)).trans (hf s x)

/-- Restoring one list never touches the stored category order. -/
theorem restoreListStep_categoryOrder (b : BackupData) (now : Nat) (st : AppState)
    (l : ShoppingList) :
    (restoreListStep b now st l).categoryOrder = st.categoryOrder := by
  unfold restoreListStep
  rw [foldl_categoryOrder]
  · split <;> rfl
  · intro s a
    split <;> rfl

/-- C10: importing a snapshot whose `categoryOrder` is the empty list
leaves the previously stored category display order unchanged, under both
merge and replace semantics — the order is only written when the
snapshot's order is non-empty. -/
theorem c10_empty_order_untouched (b : BackupData) (m : Bool) (now : Nat) (st : AppState)
    (h : b.categoryOrder = some []) :
    (importBackup b m now st).1.categoryOrder = st.categoryOrder := by
  unfold importBackup
  by_cases hv : (validateBackup (some b)).valid = true
  · simp only [hv, not_true, if_neg, ite_false, ite_true, not_false_eq_true]
    have happ : ∀ s : AppState, (applyPrefsAndOrder b s).categoryOrder = s.categoryOrder := by
      intro s
      simp only [applyPrefsAndOrder, h, List.isEmpty_nil, if_true, ite_true]
      cases b.categoryPreferences <;> rfl
    rw [happ, foldl_categoryOrder _ (restoreListStep_categoryOrder b now),
      foldl_categoryOrder, foldl_categoryOrder]
    · cases m <;> rfl
    · intro s a; rfl
    · intro s a; unfold saveProduct; split <;> rfl
  · simp [hv]

/-- C10 witness: importing the valid snapshot `bOne` (whose
`categoryOrder` is `[]`) in replace mode onto a state carrying a custom
order keeps that order. -/
theorem c10_empty_order_untouched_witness :
    bOne.categoryOrder = some [] ∧
    (importBackup bOne false 100
        { st0 with categoryOrder := [cl "dairy", cl "produce"] }).1.categoryOrder =
      [cl "dairy", cl "produce"] :=
  ⟨by decide, c10_empty_order_untouched bOne false 100
    { st0 with categoryOrder := [cl "dairy", cl "produce"] } (by decide)⟩

/-- Upserting a preference row keyed by `key` makes the lookup of `key`
return exactly the new row. -/
theorem upsert_find (prefs : List CategoryPreference) (key cat : List Char) (now : Nat) :
    ((if prefs.any (fun q => q.itemName = key) then
        prefs.map (fun q => if q.itemName = key then ⟨key, cat, now⟩ else q)
      else prefs ++ [⟨key, cat, now⟩]).find? (fun p => p.itemName = key)) =
      some ⟨key, cat, now⟩ := by
  induction prefs with
  | nil => simp
  | cons q rest ih =>
    by_cases hq : q.itemName = key
    · simp [List.find?_cons, hq]
    · by_cases hr : rest.any (fun p => p.itemName = key) = true
      · rw [if_pos hr] at ih
        simp only [List.any_cons, hq, decide_False, Bool.false_or, hr, if_true, List.map_cons,
          if_neg hq, List.find?_cons, decide_eq_true_eq]
        simpa [hq] using ih
      · rw [if_neg hr] at ih
        simp only [List.any_cons, hq, decide_False, Bool.false_or,
          Bool.not_eq_true] at hr ⊢
        rw [hr]
        simp only [if_false, List.cons_append, List.find?_cons]
        simpa [hq] using ih

/-- `savePreference` does not touch the items table. -/
theorem savePreference_items (itemName cat : List Char) (now : Nat) (st : AppState) :
    (savePreference itemName cat now st).items = st.items := by
  simp only [savePreference]
  split <;> rfl

/-- After `savePreference`, looking the normalized name up in the
preference table returns the new row. -/
theorem savePreference_find (itemName cat : List Char) (now : Nat) (st : AppState) :
    (savePreference itemName cat now st).dbPrefs.find?
        (fun p => p.itemName = normalizeItemName itemName) =
      some { itemName := normalizeItemName itemName, category := cat, learnedAt := now } := by
  simp only [savePreference]
  have h := upsert_find st.dbPrefs (normalizeItemName itemName) cat now
  split
  case isTrue hs => rwa [if_pos hs] at h
  case isFalse hs => rwa [if_neg hs] at h

/-- C8: changing an item's category through the preference-learning path
saves the preference under the item's normalized name and rewrites the
category of every item, across every list, whose normalized name matches
— a fan-out write, not a single-row update. -/
theorem c8_category_fanout (st : AppState) (listId itemId newCategory : List Char)
    (now : Nat) (item : ShoppingItem)
    (hfind : (st.items.filter (fun i => i.listId = listId)).find?
        (fun i => i.id = itemId) = some item) :
    ((handleChangeCategory listId itemId newCategory now st).dbPrefs.find?
        (fun p => p.itemName = normalizeItemName item.name) =
      some { itemName := normalizeItemName item.name, category := newCategory,
             learnedAt := now }) ∧
    ((handleChangeCategory listId itemId newCategory now st).items =
      st.items.map (fun j =>
        if normalizeItemName j.name = normalizeItemName item.name then
          { j with category := newCategory } else j)) ∧
    (∀ j ∈ (handleChangeCategory listId itemId newCategory now st).items,
      normalizeItemName j.name = normalizeItemName item.name →
        j.category = newCategory) := by
  have hitems : (handleChangeCategory listId itemId newCategory now st).items =
      st.items.map (fun j =>
        if normalizeItemName j.name = normalizeItemName item.name then
          { j with category := newCategory } else j) := by
    unfold handleChangeCategory
    rw [hfind]
    show (updateItemsByName item.name newCategory _).items = _
    unfold updateItemsByName
    rw [show (∀ s : AppState, ({ s with items := s.items.map (fun i =>
      if normalizeItemName i.name = normalizeItemName item.name then
        { i with category := newCategory } else i) } : AppState).items =
      s.items.map (fun i =>
        if normalizeItemName i.name = normalizeItemName item.name then
          { i with category := newCategory } else i)) from fun _ => rfl,
      savePreference_items]
  refine ⟨?_, hitems, ?_⟩
  · unfold handleChangeCategory
    rw [hfind]
    show (updateItemsByName item.name newCategory _).dbPrefs.find? _ = _
    unfold updateItemsByName
    exact savePreference_find item.name newCategory now st
  · intro j hj hn
    rw [hitems] at hj
    rcases List.mem_map.mp hj with ⟨j0, _, hj0⟩
    by_cases h0 : normalizeItemName j0.name = normalizeItemName item.name
    · rw [if_pos h0] at hj0
      rw [← hj0]
    · rw [if_neg h0] at hj0
      rw [← hj0] at hn
      exact absurd hn h0

/-- A concrete "Milk" item in list L1. -/
def itemMilkA : ShoppingItem :=
  { id := cl "A", listId := cl "L1", name := cl "Milk", quantity := 1,
    unit := none, category := cl "dairy", completed := false, addedAt := 0,
    completedAt := none, barcode := none, notes := none }

/-- A state with "Milk" (spelled differently) in two different lists, plus
an unrelated item. -/
def stFan : AppState :=
  { st0 with items :=
      [itemMilkA,
       { itemMilkA with id := cl "B", listId := cl "L2", name := cl " milk " },
       { itemMilkA with id := cl "C", listId := cl "L2", name := cl "Bread", category := cl "bakery" }] }

/-- C8 witness: editing the category of the L1 "Milk" updates every item
whose normalized name is `milk`, in both lists. -/
theorem c8_category_fanout_witness :
    ((stFan.items.filter (fun i => i.listId = cl "L1")).find?
        (fun i => i.id = cl "A") = some itemMilkA) ∧
    (∀ j ∈ (handleChangeCategory (cl "L1") (cl "A") (cl "beverages") 9 stFan).items,
      normalizeItemName j.name = normalizeItemName itemMilkA.name →
        j.category = cl "beverages") :=
  ⟨by decide,
   (c8_category_fanout stFan (cl "L1") (cl "A") (cl "beverages") 9 itemMilkA
      (by decide)).2.2⟩

/-- A global replacement whose pattern matches at no position of the
input leaves the input unchanged. -/
theorem replAllF_no_match (m : List Char → Option (List Char)) :
    ∀ (fuel : Nat) (l : List Char) (pw : Bool),
      (∀ t ∈ l.tails, m t = none) → replAllF m fuel pw l = l := by
  intro fuel
  induction fuel with
  | zero => intro l pw _; rfl
  | succ n ih =>
    intro l pw h
    cases l with
    | nil => rfl
    | cons c cs =>
      have hc : m (c :: cs) = none := h _ ((List.mem_tails _ _).mpr (List.suffix_refl _))
      unfold replAllF
      rw [show (if pw then none else m (c :: cs)) = none by cases pw <;> simp [hc]]
      rw [ih cs (isWordChar c) (fun t ht =>
        h t ((List.mem_tails _ _).mpr (((List.mem_tails _ _).mp ht).trans
          (List.suffix_cons c cs))))]

/-- Splitting a string that contains no comma, no newline, and no
whitespace-surrounded `and` yields the single segment
`acc.reverse ++ l`. -/
theorem splitSegsF_no_sep :
    ∀ (fuel : Nat) (acc l : List Char),
      (∀ c ∈ l, c ≠ ',' ∧ c ≠ '\n') →
      (∀ t ∈ l.tails, matchAndSep t = none) →
      splitSegsF fuel acc l = [acc.reverse ++ l] := by
  intro fuel
  induction fuel with
  | zero => intro acc l _ _; rfl
  | succ n ih =>
    intro acc l hc hand
    cases l with
    | nil => simp [splitSegsF]
    | cons c cs =>
      unfold splitSegsF
      have h1 : (c = ',' || c = '\n') = false := by
        have := hc c (List.mem_cons_self c cs)
        simp [this.1, this.2]
      rw [h1]
      simp only [Bool.false_eq_true, if_false]
      rw [hand (c :: cs) ((List.mem_tails _ _).mpr (List.suffix_refl _))]
      rw [ih (c :: acc) cs (fun x hx => hc x (List.mem_cons_of_mem c hx))
        (fun t ht => hand t ((List.mem_tails _ _).mpr
          (((List.mem_tails _ _).mp ht).trans (List.suffix_cons c cs))))]
      simp

/-- C5 counterexample: the input `"milk  shake"` has no separators and no
strippable filler, yet `parseItemsFromText` returns the segment merely
trimmed, with the interior double space preserved, whereas
`sanitizeItemName` collapses it — the two disagree. -/
theorem c5_sanitize_counterexample :
    parseItemsFromText (cl "milk  shake") ≠ [sanitizeItemName (cl "milk  shake")] ∧
    parseItemsFromText (cl "milk  shake") = [cl "milk  shake"] := by
  constructor <;> decide

/-- C5 (amended): for every string that is non-empty after trimming,
contains no separator (no comma, no newline, no whitespace-surrounded
`and`), no quantity phrase at any position, and no strippable
verb/politeness/article segment prefix, `parseItemsFromText` returns the
one-element sequence holding the merely *trimmed* input.  (Interior runs
of whitespace are preserved, so this coincides with `sanitizeItemName`
only when the input has no multi-character interior whitespace run.) -/
theorem c5_no_separator_parse (s : List Char)
    (h0 : trimL s ≠ [])
    (hdoz : ∀ t ∈ s.tails, matchDozenAt t = none)
    (hnum : ∀ t ∈ s.tails, matchNumUnitAt t = none)
    (hart : ∀ t ∈ s.tails, matchArtUnitAt t = none)
    (hsep : ∀ c ∈ s, c ≠ ',' ∧ c ≠ '\n')
    (hand : ∀ t ∈ s.tails, matchAndSep t = none)
    (hverb : tryAltsWS verbLits (trimL s) = none)
    (hpol : tryAltsWS politeLits (trimL s) = none)
    (hartc : tryAltsWS articleLits (trimL s) = none) :
    parseItemsFromText s = [trimL s] := by
  have hd : stripDozen s = s := replAllF_no_match _ _ _ _ hdoz
  have hn : stripNumUnit s = s := replAllF_no_match _ _ _ _ hnum
  have ha : stripArtUnit s = s := replAllF_no_match _ _ _ _ hart
  have hs : splitSegs s = [s] := by
    unfold splitSegs
    rw [splitSegsF_no_sep _ _ _ hsep hand]
    simp
  have hclean : segClean s = trimL s := by
    unfold segClean stripVerbPhrase stripPolitePhrase stripArticle
    rw [hverb, Option.getD_none, hpol, Option.getD_none, hartc, Option.getD_none]
  unfold parseItemsFromText
  rw [if_neg h0]
  simp only [hd, hn, ha, hs, List.map_cons, List.map_nil, hclean]
  simp [List.filter, h0, dedupe, dedupeAux]

/-- C5 witness: the theorem applied to the concrete input
`" fresh milk "`. -/
theorem c5_no_separator_parse_witness :
    trimL (cl " fresh milk ") ≠ [] ∧
    parseItemsFromText (cl " fresh milk ") = [cl "fresh milk"] :=
  ⟨by decide,
    (c5_no_separator_parse (cl " fresh milk ") (by decide) (by decide) (by decide)
      (by decide) (by decide) (by decide) (by decide) (by decide) (by decide)).trans
      (by decide)⟩

/-- `leadsWith` is exactly "the haystack starts with the needle". -/
theorem leadsWith_iff : ∀ (n l : List Char), leadsWith n l = true ↔ ∃ b, l = n ++ b := by
  intro n
  induction n with
  | nil => intro l; simp [leadsWith]
  | cons a as ih =>
    intro l
    cases l with
    | nil =>
      simp [leadsWith]
    | cons c cs =>
      simp only [leadsWith, Bool.and_eq_true, decide_eq_true_eq, ih, List.cons_append,
        List.cons.injEq]
      constructor
      · rintro ⟨rfl, b, rfl⟩
        exact ⟨b, rfl, rfl⟩
      · rintro ⟨b, h1, h2⟩
        exact ⟨h1.symm, b, h2⟩

/-- `occursB` is exactly substring occurrence. -/
theorem occursB_iff : ∀ (n l : List Char), occursB n l = true ↔ ∃ a b, l = a ++ n ++ b := by
  intro n l
  induction l with
  | nil =>
    simp only [occursB, List.isEmpty_iff]
    constructor
    · rintro rfl; exact ⟨[], [], rfl⟩
    · rintro ⟨a, b, hab⟩
      rcases List.append_eq_nil.mp (List.append_eq_nil.mp hab.symm).1 with ⟨-, h2⟩
      exact h2
  | cons c cs ih =>
    simp only [occursB, Bool.or_eq_true, leadsWith_iff, ih]
    constructor
    · rintro (⟨b, hb⟩ | ⟨a, b, hab⟩)
      · exact ⟨[], b, by simpa using hb⟩
      · exact ⟨c :: a, b, by simp [hab]⟩
    · rintro ⟨a, b, hab⟩
      cases a with
      | nil => exact Or.inl ⟨b, by simpa using hab⟩
      | cons x xs =>
        rw [List.cons_append, List.cons_append] at hab
        injection hab with h1 h2
        exact Or.inr ⟨xs, b, h2⟩

/-- Substring occurrence is invariant under reversing both strings. -/
theorem occursB_reverse (n l : List Char) : occursB n.reverse l.reverse = occursB n l := by
  rcases hb : occursB n l with _ | _
  · rcases hr : occursB n.reverse l.reverse with _ | _
    · rfl
    · exfalso
      rcases (occursB_iff _ _).mp hr with ⟨a, b, hab⟩
      have : l = b.reverse ++ n ++ a.reverse := by
        have := congrArg List.reverse hab
        simpa [List.append_assoc] using this
      rw [(occursB_iff n l).mpr ⟨b.reverse, a.reverse, this⟩] at hb
      simp at hb
  · rcases (occursB_iff _ _).mp hb with ⟨a, b, hab⟩
    refine (occursB_iff _ _).mpr ⟨b.reverse, a.reverse, ?_⟩
    simp [hab, List.append_assoc]

/-- Dropping leading whitespace cannot create or destroy an occurrence of
a needle that starts with a non-whitespace character. -/
theorem occursB_dropWhile (c0 : Char) (cs0 : List Char) (hc0 : isWS c0 = false) :
    ∀ m : List Char, occursB (c0 :: cs0) (m.dropWhile isWS) = occursB (c0 :: cs0) m := by
  intro m
  induction m with
  | nil => rfl
  | cons c cs ih =>
    by_cases h : isWS c = true
    · rw [List.dropWhile_cons_of_pos h, ih]
      have hlw : leadsWith (c0 :: cs0) (c :: cs) = false := by
        simp only [leadsWith, Bool.and_eq_false_iff]
        left
        simp only [decide_eq_false_iff_not]
        intro he
        rw [he, h] at hc0
        simp at hc0
      simp [occursB, hlw]
    · rw [List.dropWhile_cons_of_neg h]

/-- Keywords start and end with non-whitespace. -/
def kwOK (kw : List Char) : Bool :=
  (match kw.head? with | some c => !isWS c | none => false) &&
  (match kw.reverse.head? with | some c => !isWS c | none => false)

/-- For a keyword that neither starts nor ends with whitespace, occurrence
in a trimmed string coincides with occurrence in the string itself. -/
theorem occursB_trim (kw m : List Char) (h : kwOK kw = true) :
    occursB kw (trimL m) = occursB kw m := by
  obtain ⟨c0, cs0, rfl⟩ : ∃ c0 cs0, kw = c0 :: cs0 := by
    cases kw with
    | nil => simp [kwOK] at h
    | cons a b => exact ⟨a, b, rfl⟩
  obtain ⟨d0, ds0, hrev⟩ : ∃ d0 ds0, (c0 :: cs0).reverse = d0 :: ds0 := by
    cases hr : (c0 :: cs0).reverse with
    | nil => rw [List.reverse_eq_nil_iff] at hr; simp at hr
    | cons a b => exact ⟨a, b, rfl⟩
  simp only [kwOK, List.head?_cons, hrev, Bool.and_eq_true, Bool.not_eq_true'] at h
  unfold trimL
  calc occursB (c0 :: cs0) (((m.dropWhile isWS).reverse.dropWhile isWS).reverse)
      = occursB (c0 :: cs0).reverse.reverse
          (((m.dropWhile isWS).reverse.dropWhile isWS).reverse) := by
        rw [List.reverse_reverse]
    _ = occursB (c0 :: cs0).reverse ((m.dropWhile isWS).reverse.dropWhile isWS) :=
        occursB_reverse _ _
    _ = occursB (c0 :: cs0).reverse (m.dropWhile isWS).reverse := by
        rw [hrev]
        exact occursB_dropWhile d0 ds0 h.2 _
    _ = occursB (c0 :: cs0) (m.dropWhile isWS) := occursB_reverse _ _
    _ = occursB (c0 :: cs0) m := occursB_dropWhile c0 cs0 h.1 m

/-- `find?` respects pointwise-equal predicates. -/
theorem find?_pointwise {a : Type} (p q : a → Bool) :
    ∀ (l : List a), (∀ x ∈ l, p x = q x) → l.find? p = l.find? q := by
  intro l
  induction l with
  | nil => intro _; rfl
  | cons x xs ih =>
    intro h
    rw [List.find?_cons, List.find?_cons, h x (List.mem_cons_self x xs),
      ih (fun y hy => h y (List.mem_cons_of_mem x hy))]

/-- `any` respects pointwise-equal predicates. -/
theorem any_pointwise {a : Type} (p q : a → Bool) :
    ∀ (l : List a), (∀ x ∈ l, p x = q x) → l.any p = l.any q := by
  intro l
  induction l with
  | nil => intro _; rfl
  | cons x xs ih =>
    intro h
    rw [List.any_cons, List.any_cons, h x (List.mem_cons_self x xs),
      ih (fun y hy => h y (List.mem_cons_of_mem x hy))]

/-- The claim's description of keyword resolution: the id of the first
category, in the keyword index's fixed iteration order, one of whose
keywords occurs as a substring of the (lowercased) name, and `other`
when none matches. -/
def firstMatchingCategory (m : List Char) : List Char :=
  match categoryKeywords.find? (fun ck => ck.2.any (fun kw => occursB kw m)) with
  | some ck => ck.1
  | none => cl "other"

/-- ASCII lowercasing is idempotent. -/
theorem lowChar_idem (c : Char) : lowChar (lowChar c) = lowChar c := by
  unfold lowChar
  by_cases h : 65 ≤ c.toNat ∧ c.toNat ≤ 90
  · rw [if_pos h]
    have ht : (Char.ofNat (c.toNat + 32)).toNat = c.toNat + 32 := by
      unfold Char.ofNat
      split
      · rfl
      · omega
    rw [if_neg (by rw [ht]; omega)]
  · rw [if_neg h, if_neg h]

/-- Lowercasing a string is idempotent. -/
theorem lowL_idem (l : List Char) : lowL (lowL l) = lowL l := by
  simp [lowL, List.map_map, Function.comp, lowChar_idem]

/-- C6: with no preferred category supplied, `categorizeItem` returns the
id of the first category in the keyword index's fixed iteration order
(produce, dairy, meat, bakery, frozen, pantry, beverages, snacks,
household) one of whose keywords occurs as a substring of the lowercased
name, and `other` when no keyword matches; it is case-insensitive, and in
particular `categorizeItem "Milk" = "dairy"` and
`categorizeItem "" = "other"`.  (The source additionally trims the
lowercased name, which cannot change any keyword match since no keyword
starts or ends with whitespace.) -/
theorem c6_keyword_first_match :
    (∀ name, categorizeItem name none = firstMatchingCategory (lowL name)) ∧
    (∀ name, categorizeItem name none = categorizeItem (lowL name) none) ∧
    categorizeItem (cl "Milk") none = cl "dairy" ∧
    categorizeItem (cl "") none = cl "other" := by
  have hok : ∀ ck ∈ categoryKeywords, ∀ kw ∈ ck.2, kwOK kw = true := by decide
  have key : ∀ name, categorizeItem name none = firstMatchingCategory (lowL name) := by
    intro name
    show categorizeByKeywords name = _
    simp only [categorizeByKeywords, firstMatchingCategory]
    rw [find?_pointwise _ _ categoryKeywords (fun ck hck =>
      any_pointwise _ _ ck.2 (fun kw hkw => occursB_trim kw (lowL name) (hok ck hck kw hkw)))]
  refine ⟨key, fun name => ?_, by decide, by decide⟩
  rw [key name, key (lowL name), lowL_idem]

/-! ## Characterization of the import restoration phase -/

/-- The uuid generator is injective. -/
theorem genUuid_inj {m n : Nat} (h : genUuid m = genUuid n) : m = n := by
  have hl := congrArg List.length h
  simp only [genUuid, List.length_append, List.length_replicate] at hl
  omega

/-- An id that does not start with `uuid-` is never a generated id. -/
def noUuidPre (s : List Char) : Bool := !(leadsWith (cl "uuid-") s)

theorem noUuidPre_ne {s : List Char} (h : noUuidPre s = true) (n : Nat) : s ≠ genUuid n := by
  intro he
  rw [he] at h
  have : leadsWith (cl "uuid-") (genUuid n) = true :=
    (leadsWith_iff _ _).mpr ⟨List.replicate n 'x', rfl⟩
  rw [noUuidPre, this] at h
  simp at h

/-- Decidable freshness of a state: no stored list id, item id, or item
list reference is a generated uuid.  (The model's counterpart of the
collision-freeness of `uuidv4()`.) -/
def FreshB (st : AppState) : Bool :=
  st.lists.all (fun l => noUuidPre l.id) &&
  st.items.all (fun i => noUuidPre i.id && noUuidPre i.listId)

theorem freshB_lists {st : AppState} (h : FreshB st = true) :
    ∀ x ∈ st.lists, ∀ n, st.nextId ≤ n → x.id ≠ genUuid n := by
  intro x hx n _
  simp only [FreshB, Bool.and_eq_true, List.all_eq_true] at h
  exact noUuidPre_ne (h.1 x hx) n

theorem freshB_items {st : AppState} (h : FreshB st = true) :
    ∀ i ∈ st.items, ∀ n, st.nextId ≤ n → i.id ≠ genUuid n ∧ i.listId ≠ genUuid n := by
  intro i hi n _
  simp only [FreshB, Bool.and_eq_true, List.all_eq_true] at h
  have hx := h.2 i hi
  exact ⟨noUuidPre_ne hx.1 n, noUuidPre_ne hx.2 n⟩

/-- The restored copy of a snapshot list. -/
def mkRestoredList (l : ShoppingList) (idv : List Char) (now : Nat) : ShoppingList :=
  { id := idv, name := l.name, createdAt := now, updatedAt := now,
    archived := l.archived, color := l.color }

/-- The restored copy of a snapshot item: fresh id, the new list's id,
quantity and unit reset to the creation defaults, the completed flag
re-applied. -/
def mkRestoredItem (lid : List Char) (idn : Nat) (now : Nat) (it : ShoppingItem) :
    ShoppingItem :=
  { id := genUuid idn, listId := lid, name := it.name, quantity := 1,
    unit := none, category := it.category, completed := it.completed,
    addedAt := now, completedAt := if it.completed then some now else none,
    barcode := none, notes := none }

/-- The items created for one restored list, ids counted from `idn`. -/
def restoredItemsSpec (lid : List Char) (now : Nat) : Nat → List ShoppingItem → List ShoppingItem
  | _, [] => []
  | idn, it :: its => mkRestoredItem lid idn now it :: restoredItemsSpec lid now (idn + 1) its

/-- Mapping a function that fixes every element is the identity. -/
theorem map_self {α : Type} (f : α → α) :
    ∀ (l : List α), (∀ x ∈ l, f x = x) → l.map f = l := by
  intro l
  induction l with
  | nil => intro _; rfl
  | cons x xs ih =>
    intro h
    rw [List.map_cons, h x (List.mem_cons_self x xs),
      ih (fun y hy => h y (List.mem_cons_of_mem x hy))]

/-- The inner fold of `restoreListStep` — create each filtered snapshot
item and re-apply its completed flag — appends exactly the restored
items and advances the uuid counter. -/
theorem itemsFold_spec (lid : List Char) (now : Nat) :
    ∀ (its : List ShoppingItem) (s : AppState),
      (∀ i ∈ s.items, ∀ n, s.nextId ≤ n → i.id ≠ genUuid n) →
      (its.foldl (fun s it =>
          let q := createItem lid it.name it.category 1 none now s
          if it.completed then toggleItemComplete lid q.1.id now q.2 else q.2) s) =
        { s with items := s.items ++ restoredItemsSpec lid now s.nextId its,
                 nextId := s.nextId + its.length } := by
  intro its
  induction its with
  | nil =>
    intro s _
    simp [restoredItemsSpec]
  | cons it rest ih =>
    intro s hf
    rw [List.foldl_cons]
    have hstep : (let q := createItem lid it.name it.category 1 none now s
        if it.completed then toggleItemComplete lid q.1.id now q.2 else q.2) =
        { s with items := s.items ++ [mkRestoredItem lid s.nextId now it],
                 nextId := s.nextId + 1 } := by
      rcases hc : it.completed with _ | _
      · simp only [createItem, hc, if_false, Bool.false_eq_true]
        simp [mkRestoredItem, hc]
      · simp only [createItem, hc, if_true]
        simp only [toggleItemComplete]
        congr 1
        rw [List.map_append]
        rw [map_self _ s.items (fun i hi => by
          rw [if_neg]
          exact fun he => (hf i hi s.nextId (Nat.le_refl _)) he)]
        simp [mkRestoredItem, hc]
    rw [hstep, ih]
    · simp only [restoredItemsSpec]
      congr 1
      · rw [List.append_assoc]
        rfl
      · simp [List.length_cons]
        omega
    · intro i hi n hn
      have hn2 : s.nextId + 1 ≤ n := hn
      simp only [List.mem_append, List.mem_singleton] at hi
      rcases hi with hi | hi
      · exact hf i hi n (by omega)
      · rw [hi]
        simp only [mkRestoredItem]
        intro he
        have := genUuid_inj he
        omega

/-- The list object `createList` builds (always unarchived). -/
def newListOf (l : ShoppingList) (idv : List Char) (now : Nat) : ShoppingList :=
  { id := idv, name := l.name, createdAt := now, updatedAt := now,
    archived := false, color := l.color }

/-- Restoring one snapshot list appends exactly one restored list (with
the archived flag re-applied) and its restored items. -/
theorem restoreListStep_spec (b : BackupData) (now : Nat) (st : AppState) (l : ShoppingList)
    (hL : ∀ x ∈ st.lists, ∀ n, st.nextId ≤ n → x.id ≠ genUuid n)
    (hI : ∀ i ∈ st.items, ∀ n, st.nextId ≤ n → i.id ≠ genUuid n) :
    restoreListStep b now st l =
      { st with
        lists := st.lists ++ [mkRestoredList l (genUuid st.nextId) now],
        items := st.items ++ restoredItemsSpec (genUuid st.nextId) now (st.nextId + 1)
          ((b.items.getD []).filter (fun it => it.listId = l.id)),
        nextId := st.nextId + 1 +
          ((b.items.getD []).filter (fun it => it.listId = l.id)).length } := by
  unfold restoreListStep
  have hcl : createList l.name l.color now st =
      (newListOf l (genUuid st.nextId) now,
       { st with lists := st.lists ++ [newListOf l (genUuid st.nextId) now],
                 nextId := st.nextId + 1 }) := rfl
  simp only [hcl]
  have harch : (if l.archived = true then
        archiveList (newListOf l (genUuid st.nextId) now).id now
          { st with lists := st.lists ++ [newListOf l (genUuid st.nextId) now],
                    nextId := st.nextId + 1 }
      else
        { st with lists := st.lists ++ [newListOf l (genUuid st.nextId) now],
                  nextId := st.nextId + 1 }) =
      { st with lists := st.lists ++ [mkRestoredList l (genUuid st.nextId) now],
                nextId := st.nextId + 1 } := by
    rcases ha : l.archived with _ | _
    · simp only [Bool.false_eq_true, if_false]
      simp [mkRestoredList, newListOf, ha]
    · simp only [if_true]
      simp only [archiveList, newListOf]
      congr 1
      rw [List.map_append]
      rw [map_self _ st.lists (fun x hx => by
        rw [if_neg]
        exact fun he => (hL x hx st.nextId (Nat.le_refl _)) he)]
      simp [mkRestoredList, newListOf, ha]
  rw [harch]
  rw [itemsFold_spec]
  · rfl
  · intro i hi n hn
    have hn2 : st.nextId + 1 ≤ n := hn
    exact hI i hi n (by omega)

/-- Every restored item of one block carries the new list's id and a
fresh uuid from the block's counter range. -/
theorem restoredItemsSpec_mem (lid : List Char) (now : Nat) :
    ∀ (its : List ShoppingItem) (idn : Nat) (j : ShoppingItem),
      j ∈ restoredItemsSpec lid now idn its →
      j.listId = lid ∧ ∃ k, idn ≤ k ∧ k < idn + its.length ∧ j.id = genUuid k := by
  intro its
  induction its with
  | nil => intro idn j hj; simp [restoredItemsSpec] at hj
  | cons it rest ih =>
    intro idn j hj
    rcases List.mem_cons.mp hj with hj | hj
    · subst hj
      exact ⟨rfl, idn, Nat.le_refl _, by simp only [List.length_cons]; omega, rfl⟩
    · rcases ih (idn + 1) j hj with ⟨h1, k, hk1, hk2, hk3⟩
      refine ⟨h1, k, by omega, by simp only [List.length_cons]; omega, hk3⟩

/-- Restored items carry exactly the snapshot items' name, category and
completed flag, with quantity reset to 1. -/
theorem restoredItemsSpec_proj (lid : List Char) (now : Nat) :
    ∀ (its : List ShoppingItem) (idn : Nat),
      (restoredItemsSpec lid now idn its).map
          (fun i => (i.name, i.category, i.completed, i.quantity)) =
        its.map (fun it => (it.name, it.category, it.completed, (1 : Nat))) := by
  intro its
  induction its with
  | nil => intro idn; rfl
  | cons it rest ih =>
    intro idn
    simp only [restoredItemsSpec, List.map_cons, ih]
    rfl

/-- The restored lists, with the uuid counter threaded through. -/
def restoreSpecLists (bi : List ShoppingItem) (now : Nat) : Nat → List ShoppingList → List ShoppingList
  | _, [] => []
  | idn, l :: ls =>
    mkRestoredList l (genUuid idn) now ::
      restoreSpecLists bi now (idn + 1 + (bi.filter (fun it => it.listId = l.id)).length) ls

/-- The restored items of all lists, with the uuid counter threaded. -/
def restoreSpecItems (bi : List ShoppingItem) (now : Nat) : Nat → List ShoppingList → List ShoppingItem
  | _, [] => []
  | idn, l :: ls =>
    restoredItemsSpec (genUuid idn) now (idn + 1) (bi.filter (fun it => it.listId = l.id)) ++
      restoreSpecItems bi now (idn + 1 + (bi.filter (fun it => it.listId = l.id)).length) ls

/-- The uuid counter after restoring all lists. -/
def restoreSpecNext (bi : List ShoppingItem) (now : Nat) : Nat → List ShoppingList → Nat
  | idn, [] => idn
  | idn, l :: ls =>
    restoreSpecNext bi now (idn + 1 + (bi.filter (fun it => it.listId = l.id)).length) ls

theorem restoreSpecNext_le (bi : List ShoppingItem) (now : Nat) :
    ∀ (ls : List ShoppingList) (idn : Nat), idn ≤ restoreSpecNext bi now idn ls := by
  intro ls
  induction ls with
  | nil => intro idn; exact Nat.le_refl _
  | cons l ls ih =>
    intro idn
    calc idn ≤ idn + 1 + (bi.filter (fun it => it.listId = l.id)).length := by omega
      _ ≤ _ := ih _

/-- The fold restoring all snapshot lists appends exactly the restored
lists and restored items, leaving every other component unchanged. -/
theorem listsFold_spec (b : BackupData) (now : Nat) :
    ∀ (ls : List ShoppingList) (st : AppState),
      (∀ x ∈ st.lists, ∀ n, st.nextId ≤ n → x.id ≠ genUuid n) →
      (∀ i ∈ st.items, ∀ n, st.nextId ≤ n → i.id ≠ genUuid n) →
      ls.foldl (restoreListStep b now) st =
        { st with
          lists := st.lists ++ restoreSpecLists (b.items.getD []) now st.nextId ls,
          items := st.items ++ restoreSpecItems (b.items.getD []) now st.nextId ls,
          nextId := restoreSpecNext (b.items.getD []) now st.nextId ls } := by
  intro ls
  induction ls with
  | nil =>
    intro st _ _
    simp [restoreSpecLists, restoreSpecItems, restoreSpecNext]
  | cons l ls ih =>
    intro st hL hI
    rw [List.foldl_cons, restoreListStep_spec b now st l hL hI]
    rw [ih]
    · simp only [restoreSpecLists, restoreSpecItems, restoreSpecNext]
      congr 1
      · rw [List.append_assoc, List.singleton_append]
      · rw [List.append_assoc]
    · intro x hx n hn
      have hn2 : st.nextId + 1 +
          ((b.items.getD []).filter (fun it => it.listId = l.id)).length ≤ n := hn
      simp only [List.mem_append, List.mem_singleton] at hx
      rcases hx with hx | hx
      · exact hL x hx n (by omega)
      · rw [hx]
        simp only [mkRestoredList]
        intro he
        have := genUuid_inj he
        omega
    · intro i hi n hn
      have hn2 : st.nextId + 1 +
          ((b.items.getD []).filter (fun it => it.listId = l.id)).length ≤ n := hn
      rcases List.mem_append.mp hi with hi | hi
      · exact (hI i hi n (by omega))
      · rcases restoredItemsSpec_mem _ now _ _ i hi with ⟨-, k, hk1, hk2, hk3⟩
        rw [hk3]
        intro he
        have := genUuid_inj he
        omega

/-- A fold step that leaves a component alone leaves it alone over the
whole fold. -/
theorem foldl_preserves {α β : Type} (f : AppState → α → AppState) (g : AppState → β)
    (hf : ∀ s a, g (f s a) = g s) :
    ∀ (xs : List α) (s : AppState), g (xs.foldl f s) = g s
  | [], _ => rfl
  | x :: xs, s => (foldl_preserves f g hf xs (f s x)).trans (hf s x)

/-- Restoring the snapshot's custom categories appends, in order, one
category per snapshot entry whose id is the freshly generated
`custom_<lowercased name>_<now>`. -/
theorem catsFold_ids (now : Nat) :
    ∀ (cats : List Category) (s : AppState),
      ((cats.foldl (fun s c => createCategory c.name (iconOrBox c) now s) s).customCategories).map
          (fun c => c.id) =
        s.customCategories.map (fun c => c.id) ++
          cats.map (fun c => mkCustomId c.name now) := by
  intro cats
  induction cats with
  | nil => intro s; simp
  | cons c cs ih =>
    intro s
    rw [List.foldl_cons, ih]
    have hc : (createCategory c.name (iconOrBox c) now s).customCategories =
        s.customCategories ++
          [{ id := mkCustomId c.name now, name := c.name, icon := some (iconOrBox c),
             sortOrder := maxSortOrder s + 1 }] := rfl
    rw [hc]
    simp

/-- The preference/order phase never touches lists, items, or custom
categories. -/
theorem applyPrefsAndOrder_core (b : BackupData) (s : AppState) :
    (applyPrefsAndOrder b s).lists = s.lists ∧
    (applyPrefsAndOrder b s).items = s.items ∧
    (applyPrefsAndOrder b s).customCategories = s.customCategories := by
  unfold applyPrefsAndOrder
  rcases b.categoryPreferences with _ | mm <;> rcases b.categoryOrder with _ | ord <;>
    dsimp only <;>
    first
      | exact ⟨rfl, rfl, rfl⟩
      | (split <;> exact ⟨rfl, rfl, rfl⟩)

set_option maxHeartbeats 1000000 in
/-- The state after a successful import: the kept prefix (everything under
merge, nothing — except orphaned items — under replace) followed by the
restored lists, items, and custom-category ids. -/
theorem importBackup_state (b : BackupData) (m : Bool) (now : Nat) (st : AppState)
    (hv : (validateBackup (some b)).valid = true)
    (hF : FreshB st = true) :
    ((importBackup b m now st).1.lists =
        (if m then st.lists else []) ++
          restoreSpecLists (b.items.getD []) now st.nextId (b.lists.getD [])) ∧
    ((importBackup b m now st).1.items =
        (if m then st.items
         else st.items.filter (fun i => ¬ st.lists.any (fun l => l.id = i.listId))) ++
          restoreSpecItems (b.items.getD []) now st.nextId (b.lists.getD [])) ∧
    ((importBackup b m now st).1.customCategories.map (fun c => c.id) =
        (if m then st.customCategories.map (fun c => c.id) else []) ++
          (b.customCategories.getD []).map (fun c => mkCustomId c.name now)) := by
  have hcatsL : ∀ (cats : List Category) (s : AppState),
      ((cats.foldl (fun s c => createCategory c.name (iconOrBox c) now s) s)).lists = s.lists :=
    fun cats s => foldl_preserves (fun s c => createCategory c.name (iconOrBox c) now s)
      (fun x => x.lists) (fun _ _ => rfl) cats s
  have hcatsI : ∀ (cats : List Category) (s : AppState),
      ((cats.foldl (fun s c => createCategory c.name (iconOrBox c) now s) s)).items = s.items :=
    fun cats s => foldl_preserves (fun s c => createCategory c.name (iconOrBox c) now s)
      (fun x => x.items) (fun _ _ => rfl) cats s
  have hcatsN : ∀ (cats : List Category) (s : AppState),
      ((cats.foldl (fun s c => createCategory c.name (iconOrBox c) now s) s)).nextId = s.nextId :=
    fun cats s => foldl_preserves (fun s c => createCategory c.name (iconOrBox c) now s)
      (fun x => x.nextId) (fun _ _ => rfl) cats s
  have hprodL : ∀ (ps : List Product) (s : AppState),
      ((ps.foldl (fun s p => saveProduct p.barcode p.name p.category now s) s)).lists = s.lists :=
    fun ps s => foldl_preserves _ (fun x => x.lists)
      (fun s a => by unfold saveProduct; split <;> rfl) ps s
  have hprodI : ∀ (ps : List Product) (s : AppState),
      ((ps.foldl (fun s p => saveProduct p.barcode p.name p.category now s) s)).items = s.items :=
    fun ps s => foldl_preserves _ (fun x => x.items)
      (fun s a => by unfold saveProduct; split <;> rfl) ps s
  have hprodN : ∀ (ps : List Product) (s : AppState),
      ((ps.foldl (fun s p => saveProduct p.barcode p.name p.category now s) s)).nextId = s.nextId :=
    fun ps s => foldl_preserves _ (fun x => x.nextId)
      (fun s a => by unfold saveProduct; split <;> rfl) ps s
  have hprodC : ∀ (ps : List Product) (s : AppState),
      ((ps.foldl (fun s p => saveProduct p.barcode p.name p.category now s) s)).customCategories =
        s.customCategories :=
    fun ps s => foldl_preserves _ (fun x => x.customCategories)
      (fun s a => by unfold saveProduct; split <;> rfl) ps s
  unfold importBackup
  simp only [hv, not_true, if_neg, ite_false, ite_true, not_false_eq_true]
  set s1 : AppState := if m = true then st else clearForReplace st with hs1
  set s2 : AppState :=
    (b.customCategories.getD []).foldl (fun s c => createCategory c.name (iconOrBox c) now s) s1
    with hs2
  set s3 : AppState :=
    (b.products.getD []).foldl (fun s p => saveProduct p.barcode p.name p.category now s) s2
    with hs3
  have e3L : s3.lists = s1.lists := by rw [hs3, hprodL, hs2, hcatsL]
  have e3I : s3.items = s1.items := by rw [hs3, hprodI, hs2, hcatsI]
  have e3N : s3.nextId = s1.nextId := by rw [hs3, hprodN, hs2, hcatsN]
  have e1L : s1.lists = if m then st.lists else [] := by
    rw [hs1]; cases m <;> rfl
  have e1I : s1.items =
      if m then st.items
      else st.items.filter (fun i => ¬ st.lists.any (fun l => l.id = i.listId)) := by
    rw [hs1]; cases m <;> rfl
  have e1N : s1.nextId = st.nextId := by
    rw [hs1]; cases m <;> rfl
  have hL3 : ∀ x ∈ s3.lists, ∀ n, s3.nextId ≤ n → x.id ≠ genUuid n := by
    rw [e3L, e3N, e1L, e1N]
    cases m
    · simp
    · simpa using freshB_lists hF
  have hI3 : ∀ i ∈ s3.items, ∀ n, s3.nextId ≤ n → i.id ≠ genUuid n := by
    rw [e3I, e3N, e1I, e1N]
    cases m
    · simp only [if_false, Bool.false_eq_true]
      intro i hi n hn
      exact (freshB_items hF i (List.mem_filter.mp hi).1 n hn).1
    · simp only [if_true]
      intro i hi n hn
      exact (freshB_items hF i hi n hn).1
  rw [listsFold_spec b now (b.lists.getD []) s3 hL3 hI3]
  refine ⟨?_, ?_, ?_⟩
  · rw [(applyPrefsAndOrder_core b _).1]
    show s3.lists ++ restoreSpecLists (b.items.getD []) now s3.nextId (b.lists.getD []) = _
    rw [e3L, e3N, e1L, e1N]
  · rw [(applyPrefsAndOrder_core b _).2.1]
    show s3.items ++ restoreSpecItems (b.items.getD []) now s3.nextId (b.lists.getD []) = _
    rw [e3I, e3N, e1I, e1N]
  · rw [(applyPrefsAndOrder_core b _).2.2]
    show s3.customCategories.map (fun c => c.id) = _
    rw [hs3, hprodC, hs2, catsFold_ids]
    congr 1
    rw [hs1]; cases m <;> rfl

/-- The uuid counter at the start of the k-th restored block. -/
def blockIdn (bi : List ShoppingItem) : Nat → List ShoppingList → Nat → Nat
  | idn, [], _ => idn
  | idn, _ :: _, 0 => idn
  | idn, l :: ls, k + 1 =>
    blockIdn bi (idn + 1 + (bi.filter (fun it => it.listId = l.id)).length) ls k

theorem blockIdn_le (bi : List ShoppingItem) :
    ∀ (ls : List ShoppingList) (k idn : Nat), idn ≤ blockIdn bi idn ls k := by
  intro ls
  induction ls with
  | nil => intro k idn; cases k <;> exact Nat.le_refl _
  | cons l ls ih =>
    intro k idn
    cases k with
    | zero => exact Nat.le_refl _
    | succ k =>
      calc idn ≤ idn + 1 + (bi.filter (fun it => it.listId = l.id)).length := by omega
        _ ≤ _ := ih k _

/-- The k-th restored list is the k-th snapshot list with a fresh id and
the import timestamp. -/
theorem restoreSpecLists_get (bi : List ShoppingItem) (now : Nat) :
    ∀ (ls : List ShoppingList) (idn k : Nat) (rl l : ShoppingList),
      (restoreSpecLists bi now idn ls).get? k = some rl →
      ls.get? k = some l →
      rl = mkRestoredList l (genUuid (blockIdn bi idn ls k)) now := by
  intro ls
  induction ls with
  | nil => intro idn k rl l h1 h2; simp [restoreSpecLists] at h1
  | cons l0 ls ih =>
    intro idn k rl l h1 h2
    cases k with
    | zero =>
      simp only [restoreSpecLists, List.get?] at h1 h2
      injection h1 with h1
      injection h2 with h2
      rw [← h1, ← h2]
      rfl
    | succ k =>
      simp only [restoreSpecLists, List.get?] at h1 h2
      exact ih _ k rl l h1 h2

/-- Every restored item's list reference is a uuid at or above the
starting counter. -/
theorem restoreSpecItems_mem (bi : List ShoppingItem) (now : Nat) :
    ∀ (ls : List ShoppingList) (idn : Nat) (j : ShoppingItem),
      j ∈ restoreSpecItems bi now idn ls → ∃ mm, idn ≤ mm ∧ j.listId = genUuid mm := by
  intro ls
  induction ls with
  | nil => intro idn j hj; simp [restoreSpecItems] at hj
  | cons l ls ih =>
    intro idn j hj
    rcases List.mem_append.mp hj with hj | hj
    · exact ⟨idn, Nat.le_refl _, (restoredItemsSpec_mem _ now _ _ j hj).1⟩
    · rcases ih _ j hj with ⟨mm, hmm, he⟩
      exact ⟨mm, by omega, he⟩

/-- Selecting the restored items of the k-th restored list (by its fresh
id) yields exactly the restored copies of the snapshot items of the k-th
snapshot list. -/
theorem restoreSpecItems_filter (bi : List ShoppingItem) (now : Nat) :
    ∀ (ls : List ShoppingList) (idn k : Nat) (l : ShoppingList),
      ls.get? k = some l →
      (restoreSpecItems bi now idn ls).filter
          (fun i => i.listId = genUuid (blockIdn bi idn ls k)) =
        restoredItemsSpec (genUuid (blockIdn bi idn ls k)) now (blockIdn bi idn ls k + 1)
          (bi.filter (fun it => it.listId = l.id)) := by
  intro ls
  induction ls with
  | nil => intro idn k l h; simp [List.get?] at h
  | cons l0 ls ih =>
    intro idn k l h
    cases k with
    | zero =>
      simp only [List.get?] at h
      injection h with h
      subst h
      show ((restoredItemsSpec (genUuid idn) now (idn + 1) _ ++ _).filter
        (fun i => i.listId = genUuid idn)) = _
      rw [List.filter_append]
      have hfst : (restoredItemsSpec (genUuid idn) now (idn + 1)
          (bi.filter (fun it => it.listId = l0.id))).filter
            (fun i => i.listId = genUuid idn) =
          restoredItemsSpec (genUuid idn) now (idn + 1)
            (bi.filter (fun it => it.listId = l0.id)) := by
        rw [List.filter_eq_self]
        intro j hj
        simp only [decide_eq_true_eq]
        exact (restoredItemsSpec_mem _ now _ _ j hj).1
      have hsnd : (restoreSpecItems bi now
            (idn + 1 + (bi.filter (fun it => it.listId = l0.id)).length) ls).filter
            (fun i => i.listId = genUuid idn) = [] := by
        rw [List.filter_eq_nil_iff]
        intro j hj
        rcases restoreSpecItems_mem bi now ls _ j hj with ⟨mm, hmm, he⟩
        simp only [decide_eq_true_eq, he]
        intro hcontra
        have := genUuid_inj hcontra
        omega
      rw [hfst, hsnd, List.append_nil]
      rfl
    | succ k =>
      simp only [List.get?] at h
      show ((restoredItemsSpec (genUuid idn) now (idn + 1) _ ++ _).filter
        (fun i => i.listId = genUuid (blockIdn bi
          (idn + 1 + (bi.filter (fun it => it.listId = l0.id)).length) ls k))) = _
      rw [List.filter_append]
      have hfst : (restoredItemsSpec (genUuid idn) now (idn + 1)
          (bi.filter (fun it => it.listId = l0.id))).filter
            (fun i => i.listId = genUuid (blockIdn bi
              (idn + 1 + (bi.filter (fun it => it.listId = l0.id)).length) ls k)) = [] := by
        rw [List.filter_eq_nil_iff]
        intro j hj
        have hlid := (restoredItemsSpec_mem _ now _ _ j hj).1
        simp only [decide_eq_true_eq, hlid]
        intro hcontra
        have h1 := genUuid_inj hcontra
        have h2 := blockIdn_le bi ls k
          (idn + 1 + (bi.filter (fun it => it.listId = l0.id)).length)
        omega
      rw [hfst, List.nil_append]
      exact ih _ k l h

/-- Restored lists carry exactly the snapshot lists' name, color and
archived flag, in order. -/
theorem restoreSpecLists_proj (bi : List ShoppingItem) (now : Nat) :
    ∀ (ls : List ShoppingList) (idn : Nat),
      (restoreSpecLists bi now idn ls).map (fun rl => (rl.name, rl.color, rl.archived)) =
        ls.map (fun l => (l.name, l.color, l.archived)) := by
  intro ls
  induction ls with
  | nil => intro idn; rfl
  | cons l ls ih =>
    intro idn
    simp only [restoreSpecLists, List.map_cons, ih]
    rfl

/-- C1 counterexample: the snapshot item has quantity 3, but the restored
item has quantity 1 — `importBackup` re-creates items through
`createItem(listId, name, category)` and never passes the snapshot
quantity. -/
theorem c1_quantity_counterexample :
    ((bOne.items.getD []).map (fun i => i.quantity) = [3]) ∧
    ((importBackup bOne false 100 st0).1.items.map (fun i => i.quantity) = [1]) := by
  constructor <;> decide

/-- C1 (amended): for every valid snapshot and both merge settings
(on a state whose ids do not collide with the uuid generator), every
restored list carries the snapshot list's name, color, and archived flag,
and every restored item carries the snapshot item's name, category and
completed flag — but quantity is reset to the creation default 1 (and
unit is dropped); only the ids are freshly generated. -/
theorem c1_restore_preserves_fields (b : BackupData) (m : Bool) (now : Nat) (st : AppState)
    (hv : (validateBackup (some b)).valid = true)
    (hF : FreshB st = true) :
    (((importBackup b m now st).1.lists.drop (if m then st.lists.length else 0)).map
        (fun rl => (rl.name, rl.color, rl.archived)) =
      (b.lists.getD []).map (fun l => (l.name, l.color, l.archived))) ∧
    (∀ (k : Nat) (rl l : ShoppingList),
      (importBackup b m now st).1.lists.get? ((if m then st.lists.length else 0) + k) = some rl →
      (b.lists.getD []).get? k = some l →
      rl.name = l.name ∧ rl.color = l.color ∧ rl.archived = l.archived ∧
      ((importBackup b m now st).1.items.filter (fun i => i.listId = rl.id)).map
          (fun i => (i.name, i.category, i.completed, i.quantity)) =
        ((b.items.getD []).filter (fun it => it.listId = l.id)).map
          (fun it => (it.name, it.category, it.completed, (1 : Nat)))) := by
  obtain ⟨hLists, hItems, -⟩ := importBackup_state b m now st hv hF
  have hlen : (if m then st.lists else []).length = (if m then st.lists.length else 0) := by
    cases m <;> simp
  constructor
  · rw [hLists, ← hlen, List.drop_left]
    exact restoreSpecLists_proj _ now _ st.nextId
  · intro k rl l h1 h2
    rw [hLists, ← hlen] at h1
    rw [List.get?_append_right (by omega)] at h1
    have h1' : (restoreSpecLists (b.items.getD []) now st.nextId (b.lists.getD [])).get? k =
        some rl := by
      simpa using h1
    have hrl := restoreSpecLists_get (b.items.getD []) now (b.lists.getD []) st.nextId k rl l
      h1' h2
    subst hrl
    refine ⟨rfl, rfl, rfl, ?_⟩
    simp only [mkRestoredList]
    rw [hItems, List.filter_append]
    have hold : ((if m then st.items
          else st.items.filter (fun i => ¬ st.lists.any (fun ll => ll.id = i.listId))).filter
          (fun i => i.listId = genUuid (blockIdn (b.items.getD []) st.nextId (b.lists.getD []) k)))
        = [] := by
      rw [List.filter_eq_nil_iff]
      intro i hi
      have hmem : i ∈ st.items := by
        cases m with
        | false =>
          simp only [if_false, Bool.false_eq_true] at hi
          exact (List.mem_filter.mp hi).1
        | true =>
          simpa using hi
      simp only [decide_eq_true_eq]
      exact (freshB_items hF i hmem _
        (blockIdn_le (b.items.getD []) (b.lists.getD []) k st.nextId)).2
    rw [hold, List.nil_append]
    rw [restoreSpecItems_filter (b.items.getD []) now (b.lists.getD []) st.nextId k l h2]
    exact restoredItemsSpec_proj _ now _ _

/-- C1 witness: the amended theorem applied to the snapshot `bOne` on the
empty state, in replace mode. -/
theorem c1_restore_preserves_fields_witness :
    (validateBackup (some bOne)).valid = true ∧ FreshB st0 = true ∧
    (((importBackup bOne false 100 st0).1.lists.drop
        (if false then st0.lists.length else 0)).map
        (fun rl => (rl.name, rl.color, rl.archived)) =
      (bOne.lists.getD []).map (fun l => (l.name, l.color, l.archived))) :=
  ⟨by decide, by decide,
   (c1_restore_preserves_fields bOne false 100 st0 (by decide) (by decide)).1⟩

/-- Each snapshot item of a restored block has a restored copy carrying
its name and category. -/
theorem restoredItemsSpec_mem_of (lid : List Char) (now : Nat) :
    ∀ (its : List ShoppingItem) (idn : Nat) (it : ShoppingItem), it ∈ its →
      ∃ j ∈ restoredItemsSpec lid now idn its, j.name = it.name ∧ j.category = it.category := by
  intro its
  induction its with
  | nil => intro idn it h; simp at h
  | cons it0 rest ih =>
    intro idn it h
    rcases List.mem_cons.mp h with h | h
    · subst h
      exact ⟨mkRestoredItem lid idn now it, List.mem_cons_self _ _, rfl, rfl⟩
    · rcases ih (idn + 1) it h with ⟨j, hj, he⟩
      exact ⟨j, List.mem_cons_of_mem _ hj, he⟩

/-- Each snapshot item belonging to a restored snapshot list has a
restored copy carrying its name and category. -/
theorem restoreSpecItems_mem_of (bi : List ShoppingItem) (now : Nat) :
    ∀ (ls : List ShoppingList) (idn : Nat) (l : ShoppingList), l ∈ ls →
      ∀ it ∈ bi.filter (fun x => x.listId = l.id),
        ∃ j ∈ restoreSpecItems bi now idn ls, j.name = it.name ∧ j.category = it.category := by
  intro ls
  induction ls with
  | nil => intro idn l h; simp at h
  | cons l0 rest ih =>
    intro idn l hl it hit
    rcases List.mem_cons.mp hl with hl | hl
    · subst hl
      rcases restoredItemsSpec_mem_of (genUuid idn) now _ (idn + 1) it hit with ⟨j, hj, he⟩
      exact ⟨j, List.mem_append_left _ hj, he⟩
    · rcases ih _ l hl it hit with ⟨j, hj, he⟩
      exact ⟨j, List.mem_append_right _ hj, he⟩

/-- A state holding a custom category whose id also appears in the
snapshot `bNine`. -/
def stNine : AppState :=
  { st0 with customCategories :=
      [{ id := cl "custom_spices_5", name := cl "Spices", icon := some (cl "S"),
         sortOrder := 11 }] }

/-- A valid snapshot with one custom category and one item referencing
that category's (snapshot) id. -/
def bNine : BackupData :=
  { version := some (cl "1.0.0"), timestamp := some 0,
    lists := some
      [{ id := cl "L1", name := cl "Pantry", createdAt := 0, updatedAt := 0,
         archived := false, color := none }],
    items := some
      [{ id := cl "I1", listId := cl "L1", name := cl "Chili", quantity := 1,
         unit := none, category := cl "custom_spices_5", completed := false,
         addedAt := 0, completedAt := none, barcode := none, notes := none }],
    customCategories := some
      [{ id := cl "custom_spices_5", name := cl "Spices", icon := some (cl "S"),
         sortOrder := 11 }],
    products := some [], categoryPreferences := none, categoryOrder := none }

/-- C9 counterexample: under merge mode, the old custom category with the
snapshot's id still exists after the import, so the restored item whose
category field holds the snapshot custom-category id DOES reference a
category existing after the import — the claim's consequence fails. -/
theorem c9_merge_reference_counterexample :
    ((importBackup bNine true 7 stNine).1.items.map (fun i => i.category) =
      [cl "custom_spices_5"]) ∧
    ((allCategories (importBackup bNine true 7 stNine).1).map (fun c => c.id)).contains
      (cl "custom_spices_5") = true ∧
    (bNine.customCategories.getD []).map (fun c => c.id) = [cl "custom_spices_5"] := by
  refine ⟨by decide, by decide, by decide⟩

/-- C9 (amended): on a replace-mode import, each restored custom category
is created with the freshly generated id
`custom_<lowercased name>_<import time>`; provided the snapshot
custom-category id referenced by an item is neither a built-in id nor one
of these generated ids, the restored item's category reference resolves
to no category existing after the import.  (Under merge mode the original
category may survive and the reference can still resolve — see the
counterexample.) -/
theorem c9_custom_category_ids (b : BackupData) (now : Nat) (st : AppState)
    (hv : (validateBackup (some b)).valid = true)
    (hF : FreshB st = true)
    (i : ShoppingItem) (c : Category) (l : ShoppingList)
    (hi : i ∈ b.items.getD []) (hil : l ∈ b.lists.getD []) (hll : i.listId = l.id)
    (_hc : c ∈ b.customCategories.getD []) (hic : i.category = c.id)
    (hnotdef : ∀ d ∈ defaultCategories, c.id ≠ d.id)
    (hnotgen : ∀ c2 ∈ b.customCategories.getD [], c.id ≠ mkCustomId c2.name now) :
    ((importBackup b false now st).1.customCategories.map (fun cc => cc.id) =
        (b.customCategories.getD []).map (fun c2 => mkCustomId c2.name now)) ∧
    (∃ j ∈ (importBackup b false now st).1.items,
      j.name = i.name ∧ j.category = i.category) ∧
    (∀ cat ∈ allCategories (importBackup b false now st).1, cat.id ≠ i.category) := by
  obtain ⟨hLists, hItems, hCats⟩ := importBackup_state b false now st hv hF
  simp only [if_false, Bool.false_eq_true, List.nil_append] at hLists hItems hCats
  refine ⟨hCats, ?_, ?_⟩
  · rw [hItems]
    have hfit : i ∈ b.items.getD [] ∧ (decide (i.listId = l.id)) = true := ⟨hi, by simp [hll]⟩
    rcases restoreSpecItems_mem_of (b.items.getD []) now (b.lists.getD []) st.nextId l hil i
      (List.mem_filter.mpr hfit) with ⟨j, hj, h1, h2⟩
    exact ⟨j, List.mem_append_right _ hj, h1, h2⟩
  · intro cat hcat
    rw [hic]
    rcases List.mem_append.mp hcat with hcat | hcat
    · exact fun he => hnotdef cat hcat he.symm
    · have hidmem : cat.id ∈
          ((importBackup b false now st).1.customCategories.map (fun cc => cc.id)) :=
        List.mem_map.mpr ⟨cat, hcat, rfl⟩
      rw [hCats] at hidmem
      rcases List.mem_map.mp hidmem with ⟨c2, hc2, he⟩
      exact fun hcontra => hnotgen c2 hc2 (he.trans hcontra).symm

/-- C9 witness: the amended theorem applied to the snapshot `bNine` on
the empty state at import time 7, where the generated id is
`custom_spices_7` and the snapshot id `custom_spices_5` dangles. -/
theorem c9_custom_category_ids_witness :
    (validateBackup (some bNine)).valid = true ∧ FreshB st0 = true ∧
    (∀ cat ∈ allCategories (importBackup bNine false 7 st0).1,
      cat.id ≠ cl "custom_spices_5") :=
  ⟨by decide, by decide, by
    have h := (c9_custom_category_ids bNine 7 st0 (by decide) (by decide)
      ((bNine.items.getD []).get ⟨0, by decide⟩)
      ((bNine.customCategories.getD []).get ⟨0, by decide⟩)
      ((bNine.lists.getD []).get ⟨0, by decide⟩)
      (by decide) (by decide) (by decide) (by decide) (by decide)
      (by decide) (by decide)).2.2
    exact h⟩
